import Mathlib

/-!
Verification development for the animation core of code-surfer
(`src/packs/standalone/src/animation.ts`), shallowly embedded in Lean 4.
Numbers are modelled as rationals (the source uses JS numbers operated
on with exact-looking arithmetic only). The CSS style objects produced
by the animations are modelled as a record of optional numeric fields:
the `transform` field holds the `translateX` offset in px that the
source interpolates into the transform string.
-/

namespace CodeSurfer

/-- A CSS style snapshot as produced by the animations: every field the
animation module ever writes, each optional (absent means the property
is not set on the object, as with a missing key on a JS object). -/
structure Style where
  opacity : Option ℚ := none
  /-- the `translateX` offset (px) inside the transform string -/
  transform : Option ℚ := none
  height : Option ℚ := none
  scroll : Option ℚ := none
  deriving DecidableEq, Repr

/-- Source `emptyStyle` from animation.ts: `{}`. -/
def emptyStyle : Style := {}

/-- One field of `Object.assign(target, src)`: the source's own property
overwrites the target's, an absent source property leaves the target's. -/
def assignField (old new : Option ℚ) : Option ℚ :=
  match new with
  | some v => some v
  | none => old

/-- The merge `Object.assign(target, src)` on `Style` objects (the merge used by
`chain`): properties present on `src` win, the rest keep `target`'s. -/
def objAssign (s r : Style) : Style :=
  { opacity := assignField s.opacity r.opacity
    transform := assignField s.transform r.transform
    height := assignField s.height r.height
    scroll := assignField s.scroll r.scroll }

/-- Modelled from the spec: `easing.linear`, from `easing.ts` which is not
under `src/` (only its import in animation.ts is). The spec defines it as
the identity curve. -/
def linear (t : ℚ) : ℚ := t

/-- Modelled from the spec: `easing.easeInOutQuad`, from `easing.ts` which
is not under `src/`. The spec asks for a smoothstep-family curve with
`ease 0 = 0` and `ease 1 = 1` that accelerates then decelerates; this is
the standard quadratic ease-in-out. -/
def easeInOutQuad (t : ℚ) : ℚ :=
  if t < 1/2 then 2 * t * t else (4 - 2 * t) * t - 1

/-- Source `tween` from animation.ts: `from + (to - from) * ease(t)`. The source's
default easing argument (`easing.linear`) is passed explicitly here. -/
def tween (a b t : ℚ) (ease : ℚ → ℚ) : ℚ :=
  a + (b - a) * ease t

/-- Phase boundary `EXIT` from animation.ts. -/
def EXIT : ℚ := 3/10
/-- Phase boundary `SCROLL` from animation.ts. -/
def SCROLL : ℚ := 7/10
/-- Phase boundary `ENTER` from animation.ts. -/
def ENTER : ℚ := 1

/-- The slide distance `distx` from animation.ts. -/
def distx : ℚ := 250
/-- Source `outHeight` from animation.ts. -/
def outHeight : ℚ := 0

/-- A breakpoint segment of `chain`: a threshold paired with an optional
sub-animation (`undefined` slots become `none`). -/
abbrev Segment := ℚ × Option (ℚ → Style)

/-- The loop body of `chain` from animation.ts, as structural recursion on
the remaining segments, carrying `prevTop` and the running `style`.
Division by zero (equal consecutive thresholds) follows Lean's `x / 0 = 0`
convention; the source calls that case a construction error. -/
def chainLoop (t : ℚ) : List Segment → ℚ → Style → Style
  | [], _, style => style
  | (top, fn) :: rest, prevTop, style =>
    let stept := if t > top then 1 else (t - prevTop) / (top - prevTop)
    let style' :=
      match fn with
      | some f => objAssign style (f stept)
      | none => style
    if t < top then style' else chainLoop t rest top style'

/-- Source `chain` from animation.ts: the returned animation copies the start
style (`Object.assign({}, start)` — in this pure embedding the copy is
value equality; the heap-level freshness is modelled separately below)
and folds the segments with `chainLoop`. The source's default
`start = {}` is passed explicitly at call sites. -/
def chain (steps : List Segment) (start : Style) : ℚ → Style :=
  fun t => chainLoop t steps 0 start

/-- Source `slideToLeft` from animation.ts: fades between the two opacities while
the translateX offset tweens from 0 to `-distx`. -/
def slideToLeft (startOpacity endOpacity : ℚ) : ℚ → Style :=
  fun t =>
    { opacity := some (tween startOpacity endOpacity t linear)
      transform := some (tween 0 (-distx) t linear) }

/-- Source `slideFromRight` from animation.ts. -/
def slideFromRight (startOpacity endOpacity : ℚ) : ℚ → Style :=
  fun t =>
    { opacity := some (tween startOpacity endOpacity t linear)
      transform := some (tween distx 0 t linear) }

/-- Source `shrinkHeight` from animation.ts. -/
def shrinkHeight (lineHeight : ℚ) : ℚ → Style :=
  fun t => { height := some (tween lineHeight outHeight t easeInOutQuad) }

/-- Source `growHeight` from animation.ts. -/
def growHeight (lineHeight : ℚ) : ℚ → Style :=
  fun t => { height := some (tween outHeight lineHeight t easeInOutQuad) }

/-- Source `fadeOut` from animation.ts. -/
def fadeOut (offOpacity : ℚ) : ℚ → Style :=
  fun t => { opacity := some (tween 1 offOpacity t linear) }

/-- Source `fadeIn` from animation.ts. -/
def fadeIn (offOpacity : ℚ) : ℚ → Style :=
  fun t => { opacity := some (tween offOpacity 1 t linear) }

/-- Source `exitLine` from animation.ts (the source's default `lineHeight = 100`
is passed explicitly). -/
def exitLine (fromOpacity toOpacity lineHeight : ℚ) : ℚ → Style :=
  chain
    [(EXIT, some (slideToLeft fromOpacity toOpacity)),
     (SCROLL, some (shrinkHeight lineHeight)),
     (ENTER, none)]
    emptyStyle

/-- Source `enterLine` from animation.ts. -/
def enterLine (fromOpacity toOpacity lineHeight : ℚ) : ℚ → Style :=
  chain
    [(EXIT, none),
     (SCROLL, some (growHeight lineHeight)),
     (ENTER, some (slideFromRight fromOpacity toOpacity))]
    { transform := some distx, height := some 0, opacity := some 0 }

/-- Source `focus` from animation.ts. -/
def focus (fromOpacity toOpacity : ℚ) : ℚ → Style :=
  fun t => { opacity := some (tween fromOpacity toOpacity t linear) }

/-- Source `unfocus` from animation.ts. -/
def unfocus (fromOpacity toOpacity : ℚ) : ℚ → Style :=
  fun t => { opacity := some (tween fromOpacity toOpacity t linear) }

/-- Source `changeFocus` from animation.ts. -/
def changeFocus (fromOpacity toOpacity : ℚ) : ℚ → Style :=
  if fromOpacity < toOpacity then
    chain
      [(EXIT, none),
       (SCROLL, none),
       (ENTER, some (fun t => { opacity := some (tween fromOpacity toOpacity t linear) }))]
      { opacity := some fromOpacity }
  else
    chain
      [(EXIT, some (fun t => { opacity := some (tween fromOpacity toOpacity t linear) })),
       (SCROLL, none),
       (ENTER, none)]
      { opacity := some fromOpacity }

/-- Source `fadeOutIn` from animation.ts (default `offOpacity = 0` passed
explicitly at call sites). -/
def fadeOutIn (offOpacity : ℚ) : ℚ → Style :=
  chain [(1/2, some (fadeOut offOpacity)), (1, some (fadeIn offOpacity))] emptyStyle

/-- Source `halfFadeIn` from animation.ts. -/
def halfFadeIn (offOpacity : ℚ) : ℚ → Style :=
  chain [(1/2, none), (1, some (fadeIn offOpacity))] { opacity := some 0 }

/-- Source `halfFadeOut` from animation.ts. -/
def halfFadeOut (offOpacity : ℚ) : ℚ → Style :=
  chain [(1/2, some (fadeOut offOpacity)), (1, none)] emptyStyle

/-- Modelled from the spec: the per-step measured dimensions of a `Step`
(`step.dimensions` — padding-top and padding-bottom), from the
`code-surfer-types` package which is not under `src/`. -/
structure StepDimensions where
  paddingTop : ℚ
  paddingBottom : ℚ
  deriving DecidableEq, Repr

/-- Modelled from the spec: a `Step` record from the `code-surfer-types`
package, which is not under `src/` — `focusCenter` (line-height-relative
center of the focused region), `focusCount` (number of focused lines),
and optionally measured dimensions. -/
structure Step where
  focusCenter : ℚ
  focusCount : ℚ
  dimensions : Option StepDimensions
  deriving DecidableEq, Repr

/-- Modelled from the spec: the `Dimensions` record from the
`code-surfer-types` package, which is not under `src/` — container
height, container width, content width and line height. -/
structure Dimensions where
  containerHeight : ℚ
  containerWidth : ℚ
  contentWidth : ℚ
  lineHeight : ℚ
  deriving DecidableEq, Repr

/-- Modelled from the spec: `Tuple<Step>` with its `spread()` accessor,
from `tuple.ts` which is not under `src/` — an ordered pair
(previous step, next step) where either side may be absent. -/
abbrev StepPair := Option Step × Option Step

/-- Source `getZoom` from animation.ts. The source's `throw new Error(...)` is
modelled as `Except.error`; `Math.min(yZoom, 1, xZoom)` is the minimum of
the three. The absent-step check precedes the dimension checks, so an
absent step yields `null` (here `Except.ok none`) even without
dimensions. -/
def getZoom (step : Option Step) (dimensions : Option Dimensions) :
    Except String (Option ℚ) :=
  match step with
  | none => Except.ok none
  | some s =>
    match dimensions, s.dimensions with
    | some d, some sd =>
      let contentHeight := s.focusCount * d.lineHeight
      let availableHeight :=
        d.containerHeight - max sd.paddingBottom sd.paddingTop * 2
      let yZoom := availableHeight / contentHeight
      let xZoom := 9/10 * d.containerWidth / d.contentWidth
      Except.ok (some (min (min yZoom 1) xZoom))
    | _, _ => Except.error "Can't get zoom without dimensions"

/-- The per-side scroll target computed inside `scrollToFocus`:
`step ? step.focusCenter * dimensions.lineHeight : 0`. -/
def scrollTarget (step : Option Step) (d : Dimensions) : ℚ :=
  match step with
  | some s => s.focusCenter * d.lineHeight
  | none => 0

/-- Source `scrollToFocus` from animation.ts: with no dimensions, the constant-0
animation; otherwise a three-segment chain whose middle (SCROLL) segment
eased-tweens the scroll property between the two sides' targets, started
from `{ scroll: prevCenter }`; the wrapper reads the `scroll` property off
the produced style (always present, since the start style sets it). -/
def scrollToFocus (stepPair : StepPair) (dimensions : Option Dimensions) :
    ℚ → ℚ :=
  match dimensions with
  | none => fun _ => 0
  | some d =>
    let prevCenter := scrollTarget stepPair.1 d
    let nextCenter := scrollTarget stepPair.2 d
    let animation :=
      chain
        [(EXIT, none),
         (SCROLL, some (fun t =>
           { scroll := some (tween prevCenter nextCenter t easeInOutQuad) })),
         (ENTER, none)]
        { scroll := some prevCenter }
    fun t => ((animation t).scroll).getD 0

/-- JS truthiness of `x || y` followed by use as a number, as in
`prevZoom || nextZoom!` inside `scaleToFocus`: `null` and `0` are falsy,
and a `null` flowing into arithmetic coerces to 0. -/
def jsOrZoom (x y : Option ℚ) : ℚ :=
  match x with
  | some v => if v = 0 then y.getD 0 else v
  | none => y.getD 0

/-- Source `scaleToFocus` from animation.ts: with no dimensions, the constant-1
animation; otherwise computes both sides' zooms with `getZoom` (a thrown
error propagates, hence the `Except`) and tweens between
`prevZoom || nextZoom!` and `nextZoom || prevZoom!`. -/
def scaleToFocus (stepPair : StepPair) (dimensions : Option Dimensions) :
    Except String (ℚ → ℚ) :=
  match dimensions with
  | none => Except.ok (fun _ => 1)
  | some d =>
    match getZoom stepPair.1 (some d), getZoom stepPair.2 (some d) with
    | Except.ok prevZoom, Except.ok nextZoom =>
      Except.ok (fun t =>
        tween (jsOrZoom prevZoom nextZoom) (jsOrZoom nextZoom prevZoom) t
          easeInOutQuad)
    | Except.error e, _ => Except.error e
    | Except.ok _, Except.error e => Except.error e

/-! ### Spec-side restatement of the chain combinator
Written from the specification's words (§4.3), to be compared with the
source-derived `chain` above. -/

/-- Last-write-wins merge as the spec words it: later merges overwrite
same-named earlier properties, non-overlapping properties accumulate. -/
def lastWriteWins (running incoming : Style) : Style :=
  { opacity := incoming.opacity.or running.opacity
    transform := incoming.transform.or running.transform
    height := incoming.height.or running.height
    scroll := incoming.scroll.or running.scroll }

/-- The walk described by the spec for the chain combinator: for each
(threshold, sub-animation) pair in order, compute
`localT = 1 if t > threshold else (t - prevBreakpoint) / (threshold - prevBreakpoint)`,
merge a present sub-animation's result at `localT` into the running style,
return immediately when `t < threshold`, otherwise advance
`prevBreakpoint` to the threshold and continue; when the segments are
exhausted, return the accumulated style. -/
def chainSpecLoop (t : ℚ) : List Segment → ℚ → Style → Style
  | [], _, acc => acc
  | (threshold, subAnim) :: rest, prevBreakpoint, acc =>
    let localT :=
      if t > threshold then 1
      else (t - prevBreakpoint) / (threshold - prevBreakpoint)
    let acc' :=
      match subAnim with
      | some a => lastWriteWins acc (a localT)
      | none => acc
    if t < threshold then acc' else chainSpecLoop t rest threshold acc'

/-- The chain combinator as the spec describes it: start from the initial
style and run the short-circuiting fold with `prevBreakpoint = 0`. -/
def chainSpec (segments : List Segment) (start : Style) : ℚ → Style :=
  fun t => chainSpecLoop t segments 0 start

/-! ### Heap-level model of the chain combinator
`chain` in the source mutates a style object in place
(`Object.assign(style, ...)`) after allocating it fresh from the template
(`Object.assign({}, start)`). To state the freshness/non-aliasing
property, the same loop is rerun over an explicit heap: a list of style
cells addressed by index. -/

/-- A heap of style objects, addressed by allocation index. -/
abbrev Heap := List Style

/-- Read a heap cell (out-of-range reads, which never occur in the
statements below, default to the empty style). -/
def hget (h : Heap) (r : ℕ) : Style := (h[r]?).getD emptyStyle

/-- Overwrite a heap cell in place. -/
def hset (h : Heap) (r : ℕ) (s : Style) : Heap := h.set r s

/-- Allocate a fresh cell holding `s`, returning the heap and the new
cell's reference. -/
def halloc (h : Heap) (s : Style) : Heap × ℕ := (h ++ [s], h.length)

/-- The loop of `chain` with the in-place `Object.assign(style, fn(stept))`
made explicit as a heap write at the result reference `r`. -/
def chainLoopH (t : ℚ) : List Segment → ℚ → Heap → ℕ → Heap × ℕ
  | [], _, h, r => (h, r)
  | (top, fn) :: rest, prevTop, h, r =>
    let stept := if t > top then 1 else (t - prevTop) / (top - prevTop)
    let h' :=
      match fn with
      | some f => hset h r (objAssign (hget h r) (f stept))
      | none => h
    if t < top then (h', r) else chainLoopH t rest top h' r

/-- One invocation of the animation returned by `chain`, at the heap
level: `Object.assign({}, start)` allocates a fresh cell initialized from
the template cell `startRef`, then the loop mutates only that fresh cell.
Returns the final heap and the reference of the produced style. -/
def chainH (steps : List Segment) (startRef : ℕ) (h : Heap) (t : ℚ) :
    Heap × ℕ :=
  let alloc := halloc h (objAssign emptyStyle (hget h startRef))
  chainLoopH t steps 0 alloc.1 alloc.2

/-- A concrete step whose zoom is exactly 0: paddings of 50 in a
height-100 container leave no available height. -/
def stepZeroZoom : Step := ⟨0, 1, some ⟨50, 50⟩⟩

/-- A concrete step whose zoom is 1. -/
def stepOneZoom : Step := ⟨0, 1, some ⟨0, 0⟩⟩

/-- Concrete dimensions used with `stepZeroZoom` and `stepOneZoom`. -/
def dimsCex : Dimensions := ⟨100, 100, 50, 10⟩

/-! ## Theorems -/

/-- C10: for all `fromOpacity`, `toOpacity` and every progress `t`,
`unfocus fromOpacity toOpacity t` equals `focus fromOpacity toOpacity t`:
the two exported constructors denote the same function, a single
continuous opacity tween across the whole range. -/
theorem unfocus_eq_focus (fromOpacity toOpacity t : ℚ) :
    unfocus fromOpacity toOpacity t = focus fromOpacity toOpacity t ∧
    (focus fromOpacity toOpacity t).opacity =
      some (tween fromOpacity toOpacity t linear) :=
  ⟨rfl, rfl⟩

/-- C8: `exitLine 0 1 100` yields, at `t = 0`, opacity 0 and horizontal
offset 0; at `t = 3/10`, opacity 1 and offset −250 (the full slide
distance); at `t = 7/10`, height 0; and at `t = 1`, height still 0.
Symmetrically, `enterLine 0 1 100` yields, at `t = 0`, height 0,
opacity 0 and offset +250; at `t = 7/10`, height 100; and at `t = 1`,
opacity 1 and offset 0. -/
theorem exitLine_enterLine_values :
    (exitLine 0 1 100 0).opacity = some 0 ∧
    (exitLine 0 1 100 0).transform = some 0 ∧
    (exitLine 0 1 100 (3/10)).opacity = some 1 ∧
    (exitLine 0 1 100 (3/10)).transform = some (-250) ∧
    (exitLine 0 1 100 (7/10)).height = some 0 ∧
    (exitLine 0 1 100 1).height = some 0 ∧
    (enterLine 0 1 100 0).height = some 0 ∧
    (enterLine 0 1 100 0).opacity = some 0 ∧
    (enterLine 0 1 100 0).transform = some 250 ∧
    (enterLine 0 1 100 (7/10)).height = some 100 ∧
    (enterLine 0 1 100 1).opacity = some 1 ∧
    (enterLine 0 1 100 1).transform = some 0 := by
  norm_num [exitLine, enterLine, chain, chainLoop, EXIT, SCROLL, ENTER,
    slideToLeft, slideFromRight, shrinkHeight, growHeight, objAssign,
    assignField, tween, linear, easeInOutQuad, emptyStyle, distx, outHeight]

/-- C2 counterexample: `chain` evaluated at progress 0 does not return the
start style exactly — with the valid one-segment list
`[(1, fadeOut 0)]` (thresholds strictly increasing, last threshold 1) and
start `{}`, the first sub-animation is evaluated at local progress 0 and
its opacity property (`tween 1 0 0 = 1`) is merged in before the early
return, so the result differs from the empty start style. -/
theorem chain_at_zero_cex :
    chain [((1 : ℚ), some (fadeOut 0))] emptyStyle 0 ≠ emptyStyle := by
  intro h
  have h2 := congrArg Style.opacity h
  norm_num [chain, chainLoop, fadeOut, objAssign, assignField, tween, linear,
    emptyStyle] at h2
  exact Option.noConfusion h2

/-- C2 (amended): for every breakpoint list whose first threshold is
positive, evaluating the chain at progress 0 returns the start style with
the first segment's sub-animation, when present, evaluated at local
progress 0 and merged in; the result equals the start style exactly when
the first segment's sub-animation is absent (and for the empty list). -/
theorem chain_at_zero (top : ℚ) (fn : Option (ℚ → Style))
    (rest : List Segment) (start : Style) (h : 0 < top) :
    chain [] start 0 = start ∧
    chain ((top, fn) :: rest) start 0 =
      (match fn with
       | none => start
       | some f => objAssign start (f 0)) := by
  refine ⟨rfl, ?_⟩
  have hng : ¬ ((0 : ℚ) > top) := not_lt.mpr h.le
  have hlt : (0 : ℚ) < top := h
  simp only [chain, chainLoop, hng, if_false, if_pos hlt]
  cases fn with
  | none => simp
  | some f => simp

/-- C2 witness for `chain_at_zero`: a concrete instance with an absent
first sub-animation, where the result at 0 is the start style exactly. -/
theorem chain_at_zero_witness :
    chain [((1 : ℚ), none)] emptyStyle 0 = emptyStyle :=
  (chain_at_zero 1 none [] emptyStyle (by norm_num)).2

/-- C3: for a present step with measured dimensions and a present
dimensions record, `getZoom` returns
`min (min yZoom 1) xZoom` with `yZoom = (containerHeight - 2 * max paddingTop paddingBottom) / (focusCount * lineHeight)`
and `xZoom = 0.9 * containerWidth / contentWidth`; the result is never
greater than 1; and on the concrete input with containerHeight 200,
paddings 0, lineHeight 10, focusCount 10, containerWidth 100,
contentWidth 50 the result is 1. -/
theorem getZoom_formula (fc fcount pT pB cH cW ctW lH : ℚ) :
    getZoom (some ⟨fc, fcount, some ⟨pT, pB⟩⟩) (some ⟨cH, cW, ctW, lH⟩) =
      Except.ok (some (min (min ((cH - max pT pB * 2) / (fcount * lH)) 1)
        (9/10 * cW / ctW))) ∧
    min (min ((cH - max pT pB * 2) / (fcount * lH)) 1) (9/10 * cW / ctW) ≤ 1 ∧
    getZoom (some ⟨0, 10, some ⟨0, 0⟩⟩) (some ⟨200, 100, 50, 10⟩) =
      Except.ok (some 1) := by
  refine ⟨?_, ?_, by norm_num [getZoom, min_def]⟩
  · simp only [getZoom]
    rw [max_comm]
  · exact le_trans (min_le_left _ _) (min_le_right _ _)

/-- C4: `getZoom` returns `null` (here `Except.ok none`) for every absent
step regardless of the dimensions argument; for a present step it raises
an error exactly when the step lacks measured dimensions or the
dimensions argument is absent; and in that case it does not return a
numeric zoom. -/
theorem getZoom_absent_and_errors :
    (∀ d, getZoom none d = Except.ok none) ∧
    (∀ s d, (∃ e, getZoom (some s) d = Except.error e) ↔
      (d = none ∨ s.dimensions = none)) ∧
    (∀ s d e, getZoom (some s) d = Except.error e →
      ∀ z, getZoom (some s) d ≠ Except.ok z) := by
  refine ⟨fun d => rfl, ?_, ?_⟩
  · intro s d
    obtain ⟨fc, fcount, sd⟩ := s
    cases d with
    | none =>
      cases sd <;> simp [getZoom]
    | some dn =>
      cases sd with
      | none => simp [getZoom]
      | some sdd => simp [getZoom]
  · intro s d e he z
    rw [he]
    intro hc
    exact Except.noConfusion hc

/-- C4 witness for `getZoom_absent_and_errors`: a concrete present step
without measured dimensions makes `getZoom` raise. -/
theorem getZoom_absent_and_errors_witness :
    ∃ e, getZoom (some ⟨0, 1, none⟩) (some ⟨1, 1, 1, 1⟩) = Except.error e :=
  (getZoom_absent_and_errors.2.1 ⟨0, 1, none⟩ (some ⟨1, 1, 1, 1⟩)).mpr
    (Or.inr rfl)

/-- Helper: one field of `Object.assign` is the or of the options. -/
theorem assignField_eq_or (old new : Option ℚ) : assignField old new = new.or old := by
  cases new <;> rfl

/-- Helper: the source's `Object.assign` merge coincides with the spec's
last-write-wins merge. -/
theorem objAssign_eq_lastWriteWins (s r : Style) :
    objAssign s r = lastWriteWins s r := by
  simp only [objAssign, lastWriteWins, assignField_eq_or]

/-- C1: for every breakpoint list, start style and progress `t`, the
animation returned by `chain` computes exactly the short-circuiting fold
the spec describes (`chainSpec`): walk the (threshold, sub-animation)
pairs in order, at each pair compute
`localT = 1 if t > threshold else (t - prevBreakpoint) / (threshold - prevBreakpoint)`,
merge a present sub-animation's result at `localT` into the running style
last-write-wins, return the running style immediately when
`t < threshold` without touching later segments, otherwise advance
`prevBreakpoint` and continue, and return the accumulated style when the
segments are exhausted. -/
theorem chain_eq_chainSpec (steps : List Segment) (start : Style) (t : ℚ) :
    chain steps start t = chainSpec steps start t := by
  simp only [chain, chainSpec]
  suffices h : ∀ (l : List Segment) (p : ℚ) (s : Style),
      chainLoop t l p s = chainSpecLoop t l p s from h steps 0 start
  intro l
  induction l with
  | nil => intro p s; rfl
  | cons seg rest ih =>
    intro p s
    obtain ⟨top, fn⟩ := seg
    simp only [chainLoop, chainSpecLoop, objAssign_eq_lastWriteWins]
    cases fn with
    | none =>
      by_cases hlt : t < top
      · simp [hlt]
      · simp [hlt, ih]
    | some f =>
      by_cases hlt : t < top
      · simp [hlt]
      · simp [hlt, ih]

/-- C7: the animation returned by `changeFocus` is direction-dependent.
Brightening (`fromOpacity < toOpacity`): the opacity equals `fromOpacity`
for every `t ≤ 7/10` (EXIT and SCROLL phases) and tweens from
`fromOpacity` to `toOpacity` during the ENTER phase (`7/10 < t ≤ 1`).
Dimming (`fromOpacity ≥ toOpacity`): the opacity tweens from
`fromOpacity` to `toOpacity` during the EXIT phase (`t ≤ 3/10`) and
equals `toOpacity` for every `t` in `(3/10, 1]`. -/
theorem changeFocus_phases (fromOpacity toOpacity t : ℚ) :
    (fromOpacity < toOpacity →
      (t ≤ SCROLL → (changeFocus fromOpacity toOpacity t).opacity = some fromOpacity) ∧
      (SCROLL < t → t ≤ 1 →
        (changeFocus fromOpacity toOpacity t).opacity =
          some (tween fromOpacity toOpacity ((t - SCROLL) / (ENTER - SCROLL)) linear))) ∧
    (toOpacity ≤ fromOpacity →
      (t ≤ EXIT → (changeFocus fromOpacity toOpacity t).opacity =
        some (tween fromOpacity toOpacity ((t - 0) / (EXIT - 0)) linear)) ∧
      (EXIT < t → t ≤ 1 →
        (changeFocus fromOpacity toOpacity t).opacity = some toOpacity)) := by
  constructor
  · intro hab
    have hbranch : changeFocus fromOpacity toOpacity =
        chain
          [(EXIT, none), (SCROLL, none),
           (ENTER, some (fun u => { opacity := some (tween fromOpacity toOpacity u linear) }))]
          { opacity := some fromOpacity } := by
      simp [changeFocus, hab]
    constructor
    · intro ht
      rw [hbranch]
      simp only [chain, chainLoop, EXIT, SCROLL, ENTER]
      by_cases h1 : t < 3/10
      · simp [h1]
      · by_cases h2 : t < 7/10
        · simp [h1, h2]
        · have ht7 : t = 7/10 := le_antisymm (by simpa [SCROLL] using ht) (not_lt.mp h2)
          subst ht7
          norm_num [objAssign, assignField, tween, linear]
    · intro h7 h1
      rw [hbranch]
      simp only [chain, chainLoop, EXIT, SCROLL, ENTER]
      have hn1 : ¬ t < 3/10 := by rw [SCROLL] at h7; intro hc; linarith
      have hn2 : ¬ t < 7/10 := by rw [SCROLL] at h7; exact not_lt.mpr h7.le
      have hn3 : ¬ t > 1 := not_lt.mpr h1
      simp only [hn1, hn2, hn3, if_false, SCROLL, ENTER, gt_iff_lt, if_neg]
      by_cases h4 : t < 1 <;>
        simp [h4, objAssign, assignField, SCROLL, ENTER]
  · intro hba
    have hnab : ¬ fromOpacity < toOpacity := not_lt.mpr hba
    have hbranch : changeFocus fromOpacity toOpacity =
        chain
          [(EXIT, some (fun u => { opacity := some (tween fromOpacity toOpacity u linear) })),
           (SCROLL, none), (ENTER, none)]
          { opacity := some fromOpacity } := by
      simp [changeFocus, hnab]
    constructor
    · intro ht
      rw [hbranch]
      simp only [chain, chainLoop, EXIT, SCROLL, ENTER]
      have hng : ¬ t > 3/10 := by rw [EXIT] at ht; exact not_lt.mpr ht
      by_cases h1 : t < 3/10
      · simp [hng, h1, objAssign, assignField, EXIT]
      · have ht3 : t = 3/10 := le_antisymm (by simpa [EXIT] using ht) (not_lt.mp h1)
        subst ht3
        by_cases h2 : (3/10 : ℚ) < 7/10
        · norm_num [objAssign, assignField, tween, linear, EXIT]
        · norm_num at h2
    · intro h3 h1
      rw [hbranch]
      simp only [chain, chainLoop, EXIT, SCROLL, ENTER]
      have hg : t > 3/10 := by rwa [EXIT] at h3
      have hn1 : ¬ t < 3/10 := by intro hc; linarith
      simp only [hg, if_true, hn1, if_false]
      by_cases h2 : t < 7/10 <;>
        by_cases h4 : t < 1 <;>
          simp [h2, h4, objAssign, assignField, tween, linear]

/-- C7 witness for `changeFocus_phases`: concrete values in each phase of
each direction. -/
theorem changeFocus_phases_witness :
    (changeFocus 0 1 (1/2)).opacity = some 0 ∧
    (changeFocus 0 1 (4/5)).opacity =
      some (tween 0 1 ((4/5 - SCROLL) / (ENTER - SCROLL)) linear) ∧
    (changeFocus 1 0 (1/5)).opacity =
      some (tween 1 0 ((1/5 - 0) / (EXIT - 0)) linear) ∧
    (changeFocus 1 0 (1/2)).opacity = some 0 :=
  ⟨((changeFocus_phases 0 1 (1/2)).1 (by norm_num)).1 (by norm_num [SCROLL]),
   ((changeFocus_phases 0 1 (4/5)).1 (by norm_num)).2 (by norm_num [SCROLL]) (by norm_num),
   ((changeFocus_phases 1 0 (1/5)).2 (by norm_num)).1 (by norm_num [EXIT]),
   ((changeFocus_phases 1 0 (1/2)).2 (by norm_num)).2 (by norm_num [EXIT]) (by norm_num)⟩

/-- C5: for every step pair and present dimensions, the animation returned
by `scrollToFocus` is constant during the EXIT phase (`t < 3/10`) at the
previous side's scroll target `focusCenter * lineHeight` (0 if absent),
eased-tweens between the two sides' targets during the SCROLL phase
(`3/10 ≤ t ≤ 7/10`), and is constant during the ENTER phase (`t > 7/10`)
at the next side's target; with absent dimensions it is the constant-0
animation; and when both sides share the same `focusCenter` it is
constant for all `t`. -/
theorem scrollToFocus_phases (prev next : Option Step) (d : Dimensions) (t : ℚ) :
    scrollToFocus (prev, next) none t = 0 ∧
    (t < EXIT → scrollToFocus (prev, next) (some d) t = scrollTarget prev d) ∧
    (EXIT ≤ t → t ≤ SCROLL →
      scrollToFocus (prev, next) (some d) t =
        tween (scrollTarget prev d) (scrollTarget next d)
          ((t - EXIT) / (SCROLL - EXIT)) easeInOutQuad) ∧
    (SCROLL < t → scrollToFocus (prev, next) (some d) t = scrollTarget next d) ∧
    (∀ s1 s2, prev = some s1 → next = some s2 →
      s1.focusCenter = s2.focusCenter →
      scrollToFocus (prev, next) (some d) t = s1.focusCenter * d.lineHeight) := by
  have heval : ∀ u : ℚ, scrollToFocus (prev, next) (some d) u =
      if u < 3/10 then scrollTarget prev d
      else tween (scrollTarget prev d) (scrollTarget next d)
        (if u > 7/10 then 1 else (u - 3/10) / (7/10 - 3/10)) easeInOutQuad := by
    intro u
    simp only [scrollToFocus, chain, chainLoop, EXIT, SCROLL, ENTER]
    by_cases h1 : u < 3/10
    · simp [h1]
    · by_cases h2 : u < 7/10
      · simp [h1, h2, objAssign, assignField]
      · by_cases h3 : u < 1 <;> simp [h1, h2, h3, objAssign, assignField]
  refine ⟨rfl, ?_, ?_, ?_, ?_⟩
  · intro ht
    rw [EXIT] at ht
    rw [heval t, if_pos ht]
  · intro h1 h2
    rw [EXIT] at h1
    rw [SCROLL] at h2
    rw [heval t, if_neg (not_lt.mpr h1), if_neg (not_lt.mpr h2), EXIT, SCROLL]
  · intro hgt
    rw [SCROLL] at hgt
    have hn1 : ¬ t < 3/10 := by intro hc; linarith
    rw [heval t, if_neg hn1, if_pos hgt]
    norm_num [tween, easeInOutQuad]
  · intro s1 s2 hp hn hfc
    subst hp
    subst hn
    rw [heval t]
    by_cases h1 : t < 3/10
    · simp [h1, scrollTarget]
    · simp only [h1, if_false, scrollTarget, hfc, tween]
      ring

/-- C5 witness for `scrollToFocus_phases`: concrete EXIT- and ENTER-phase
values, and the constant animation for a pair sharing a focus center. -/
theorem scrollToFocus_phases_witness :
    scrollToFocus (some ⟨2, 1, none⟩, some ⟨5, 1, none⟩)
      (some ⟨100, 100, 50, 10⟩) (1/5) =
      scrollTarget (some ⟨2, 1, none⟩) ⟨100, 100, 50, 10⟩ ∧
    scrollToFocus (some ⟨2, 1, none⟩, some ⟨5, 1, none⟩)
      (some ⟨100, 100, 50, 10⟩) (9/10) =
      scrollTarget (some ⟨5, 1, none⟩) ⟨100, 100, 50, 10⟩ ∧
    scrollToFocus (some ⟨3, 1, none⟩, some ⟨3, 2, none⟩)
      (some ⟨100, 100, 50, 10⟩) (1/2) = 3 * 10 :=
  ⟨(scrollToFocus_phases _ _ _ _).2.1 (by norm_num [EXIT]),
   (scrollToFocus_phases _ _ _ _).2.2.2.1 (by norm_num [SCROLL]),
   (scrollToFocus_phases _ _ _ _).2.2.2.2 ⟨3, 1, none⟩ ⟨3, 2, none⟩ rfl rfl rfl⟩

/-- Helper: `scaleToFocus` with present dimensions, when both `getZoom`
calls succeed, returns the tween between the fallback-combined zooms. -/
theorem scaleToFocus_ok (p n : Option Step) (d : Dimensions) (zp zn : Option ℚ)
    (hp : getZoom p (some d) = Except.ok zp)
    (hn : getZoom n (some d) = Except.ok zn) :
    scaleToFocus (p, n) (some d) =
      Except.ok (fun t => tween (jsOrZoom zp zn) (jsOrZoom zn zp) t easeInOutQuad) := by
  simp only [scaleToFocus, hp, hn]

/-- C6 counterexample: with both sides present, the animation returned by
`scaleToFocus` is not always the eased tween between the two `getZoom`
values. With `stepZeroZoom` (paddings 50 in a height-100 container, hence
zoom 0) and `stepOneZoom` (zoom 1), the JS falsy fallback
`prevZoom || nextZoom` replaces the zoom 0 by 1, so the animation is the
constant 1 rather than the claimed tween from 0 to 1 (which is 0 at
`t = 0`). -/
theorem scaleToFocus_cex :
    getZoom (some stepZeroZoom) (some dimsCex) = Except.ok (some 0) ∧
    getZoom (some stepOneZoom) (some dimsCex) = Except.ok (some 1) ∧
    ¬ scaleToFocus (some stepZeroZoom, some stepOneZoom) (some dimsCex) =
        Except.ok (fun t => tween 0 1 t easeInOutQuad) := by
  have h0 : getZoom (some stepZeroZoom) (some dimsCex) = Except.ok (some 0) := by
    norm_num [getZoom, stepZeroZoom, dimsCex, min_def]
  have h1 : getZoom (some stepOneZoom) (some dimsCex) = Except.ok (some 1) := by
    norm_num [getZoom, stepOneZoom, dimsCex, min_def]
  refine ⟨h0, h1, ?_⟩
  intro h
  rw [scaleToFocus_ok (some stepZeroZoom) (some stepOneZoom) dimsCex
    (some 0) (some 1) h0 h1] at h
  have h2 := congrFun (Except.ok.inj h) 0
  norm_num [jsOrZoom, tween, easeInOutQuad] at h2

/-- C6 (amended): `scaleToFocus` with absent dimensions is the constant-1
animation; with exactly one present side (whose `getZoom` succeeds with
value `z`) it is the constant animation at `z`; and with both sides
present it is the eased tween between the two `getZoom` values provided
both are nonzero (a zoom of exactly 0 is falsy in JS and triggers the
fallback to the other side's zoom, see the counterexample). -/
theorem scaleToFocus_cases :
    (∀ pair : StepPair, scaleToFocus pair none = Except.ok (fun _ => 1)) ∧
    (∀ (s : Step) (d : Dimensions) (z : ℚ),
      getZoom (some s) (some d) = Except.ok (some z) →
      scaleToFocus (none, some s) (some d) = Except.ok (fun _ => z) ∧
      scaleToFocus (some s, none) (some d) = Except.ok (fun _ => z)) ∧
    (∀ (s1 s2 : Step) (d : Dimensions) (z1 z2 : ℚ),
      getZoom (some s1) (some d) = Except.ok (some z1) →
      getZoom (some s2) (some d) = Except.ok (some z2) →
      z1 ≠ 0 → z2 ≠ 0 →
      scaleToFocus (some s1, some s2) (some d) =
        Except.ok (fun t => tween z1 z2 t easeInOutQuad)) := by
  refine ⟨fun pair => rfl, ?_, ?_⟩
  · intro s d z hz
    have hnone : getZoom none (some d) = Except.ok none := rfl
    constructor
    · rw [scaleToFocus_ok none (some s) d none (some z) hnone hz]
      congr 1
      funext u
      rcases eq_or_ne z 0 with h0 | h0
      · subst h0
        simp [jsOrZoom, tween]
      · simp [jsOrZoom, h0, tween]
    · rw [scaleToFocus_ok (some s) none d (some z) none hz hnone]
      congr 1
      funext u
      rcases eq_or_ne z 0 with h0 | h0
      · subst h0
        simp [jsOrZoom, tween]
      · simp [jsOrZoom, h0, tween]
  · intro s1 s2 d z1 z2 h1 h2 hz1 hz2
    rw [scaleToFocus_ok (some s1) (some s2) d (some z1) (some z2) h1 h2]
    congr 1
    funext u
    simp [jsOrZoom, hz1, hz2]

/-- C6 witness for `scaleToFocus_cases`: with an absent previous side, the
animation is constant at the present side's zoom. -/
theorem scaleToFocus_cases_witness :
    scaleToFocus (none, some ⟨0, 10, some ⟨0, 0⟩⟩) (some ⟨200, 100, 50, 10⟩) =
      Except.ok (fun _ => 1) :=
  (scaleToFocus_cases.2.1 ⟨0, 10, some ⟨0, 0⟩⟩ ⟨200, 100, 50, 10⟩ 1
    (by norm_num [getZoom, min_def])).1

/-- Helper: the loop of the heap-level chain never changes the result
reference it was given. -/
theorem chainLoopH_ref (t : ℚ) (steps : List Segment) :
    ∀ (p : ℚ) (h : Heap) (r : ℕ), (chainLoopH t steps p h r).2 = r := by
  induction steps with
  | nil => intro p h r; rfl
  | cons seg rest ih =>
    intro p h r
    obtain ⟨top, fn⟩ := seg
    simp only [chainLoopH]
    cases fn with
    | none =>
      by_cases hlt : t < top
      · simp [hlt]
      · simp [hlt, ih]
    | some f =>
      by_cases hlt : t < top
      · simp [hlt]
      · simp [hlt, ih]

/-- Helper: the loop of the heap-level chain writes only to the result
cell, so every other cell keeps its value. -/
theorem chainLoopH_preserves (t : ℚ) (steps : List Segment) :
    ∀ (p : ℚ) (h : Heap) (r j : ℕ), j ≠ r →
      hget (chainLoopH t steps p h r).1 j = hget h j := by
  induction steps with
  | nil => intro p h r j _; rfl
  | cons seg rest ih =>
    intro p h r j hj
    obtain ⟨top, fn⟩ := seg
    simp only [chainLoopH]
    cases fn with
    | none =>
      by_cases hlt : t < top
      · simp [hlt]
      · simp [hlt, ih _ _ _ _ hj]
    | some f =>
      have hw : hget (hset h r (objAssign (hget h r)
          (f (if t > top then 1 else (t - p) / (top - p))))) j = hget h j := by
        simp only [hget, hset]
        rw [List.getElem?_set_ne (Ne.symm hj)]
      by_cases hlt : t < top
      · simp [hlt, hw]
      · simp only [hlt, if_false]
        rw [ih _ _ _ _ hj]
        exact hw

/-- C9: each invocation of the animation returned by `chain` produces a
freshly allocated style object that does not alias the caller-supplied
start template: the produced reference differs from the template's
reference, the template's cell is unchanged after the call, and mutating
the produced cell afterwards never changes the template's cell. -/
theorem chainH_fresh (steps : List Segment) (startRef : ℕ) (h : Heap) (t : ℚ)
    (hr : startRef < h.length) :
    (chainH steps startRef h t).2 ≠ startRef ∧
    hget (chainH steps startRef h t).1 startRef = hget h startRef ∧
    ∀ s, hget (hset (chainH steps startRef h t).1 (chainH steps startRef h t).2 s)
        startRef = hget h startRef := by
  have hres : (chainH steps startRef h t).2 = h.length := by
    simp only [chainH, halloc]
    exact chainLoopH_ref t steps 0 _ _
  have hne : startRef ≠ h.length := Nat.ne_of_lt hr
  have happ : hget (h ++ [objAssign emptyStyle (hget h startRef)]) startRef =
      hget h startRef := by
    simp only [hget]
    rw [List.getElem?_append, if_pos hr]
  have hpres : hget (chainH steps startRef h t).1 startRef = hget h startRef := by
    simp only [chainH, halloc]
    rw [chainLoopH_preserves t steps 0 _ h.length startRef hne]
    exact happ
  refine ⟨by rw [hres]; exact hne.symm, hpres, ?_⟩
  intro s
  have hset_ne : hget (hset (chainH steps startRef h t).1
      (chainH steps startRef h t).2 s) startRef =
      hget (chainH steps startRef h t).1 startRef := by
    simp only [hget, hset]
    rw [hres, List.getElem?_set_ne hne.symm]
  rw [hset_ne, hpres]

/-- C9 witness for `chainH_fresh`: on a one-cell heap holding the
template, the produced reference is a fresh cell, not the template's. -/
theorem chainH_fresh_witness :
    (chainH [] 0 [emptyStyle] 0).2 ≠ 0 :=
  (chainH_fresh [] 0 [emptyStyle] 0 (by decide)).1

end CodeSurfer
